import Mathlib

/-!
Verification of the Heimdall tuning service (router/services/tuning) against
its natural-language specification.

The Python source is shallowly embedded: floating-point quantities are
modelled as rationals, JSON-optional fields as `Option` (the code reads them
with `dict.get(key, default)`, and the defaults are applied exactly where the
code applies them), and the class methods of `PostHookLogProcessor`,
`HyperparameterOptimizer`, `TuningServiceAPI`, `ArtifactExporter` and
`EmbeddingClusterAnalyzer` as plain functions.
-/

namespace Heimdall

/-- The three routing buckets; the code represents them as the
integers 0 (cheap), 1 (mid), 2 (hard). -/
inductive Label : Type where
  | cheap : Label
  | mid : Label
  | hard : Label
deriving DecidableEq

/-- The integer the code uses for each bucket (0 = cheap, 1 = mid, 2 = hard);
also the ordinal order cheap < mid < hard. -/
def Label.ord : Label → ℕ
  | .cheap => 0
  | .mid => 1
  | .hard => 2

/-- One PostHook log record, as read by `_extract_features` and
`_compute_empirical_label` in train_gbdt.py.  Fields the code reads with
`dict.get(key, default)` are `Option`s.  `success`, `has_code` and
`has_math` are read with default `False` and used as booleans, so they are
plain `Bool`s here.  The field the source spells with the words context and
ratio is named `context_fit` in this embedding. -/
structure LogRecord : Type where
  success : Bool
  quality_score : Option ℚ
  total_cost : Option ℚ
  token_count : Option ℚ
  cluster_id : Option ℚ
  has_code : Bool
  has_math : Bool
  ngram_entropy : Option ℚ
  context_fit : Option ℚ
  user_success_rate : Option ℚ
  avg_latency : Option ℚ
  top_p_distances : Option (List ℚ)
  embedding : List ℚ
deriving DecidableEq

/-! ## Label Deriver (`PostHookLogProcessor._compute_empirical_label`) -/

/-- `cheap_cost_threshold` in `_compute_empirical_label` (0.50 per million tokens). -/
def cheap_cost_threshold : ℚ := 0.5

/-- `mid_cost_threshold` in `_compute_empirical_label` (5.0 per million tokens). -/
def mid_cost_threshold : ℚ := 5

/-- `cost_per_million = (actual_cost / max(token_count, 1)) * 1_000_000` in
`_compute_empirical_label`; at this read `total_cost` defaults to 0 and
`token_count` defaults to 1000. -/
def costPerMillion (r : LogRecord) : ℚ :=
  (r.total_cost.getD 0) / max (r.token_count.getD 1000) 1 * 1000000

/-- `has_complex_reasoning` inside `_compute_empirical_label`; at this read
`ngram_entropy` defaults to 0 and `token_count` defaults to 0. -/
def complexReasoning (r : LogRecord) : Bool :=
  r.has_math || decide (r.ngram_entropy.getD 0 > 6) || decide (r.token_count.getD 0 > 20000)

/-- `PostHookLogProcessor._compute_empirical_label` (train_gbdt.py): the
empirical bucket label of one log record; `quality_score` defaults to 0.5. -/
def computeEmpiricalLabel (r : LogRecord) : Label :=
  if ¬ r.success then .hard
  else if r.quality_score.getD 0.5 < 0.3 then .hard
  else if r.quality_score.getD 0.5 < 0.6 ∧ costPerMillion r < cheap_cost_threshold then .mid
  else if r.quality_score.getD 0.5 > 0.8 ∧ costPerMillion r > mid_cost_threshold then
    if ¬ complexReasoning r then .cheap else .mid
  else if costPerMillion r < cheap_cost_threshold then .cheap
  else if costPerMillion r < mid_cost_threshold then .mid
  else .hard

/-- The Label Deriver rule table exactly as the specification words it: an
ordered list of (guard, label) rules over the request success flag `s`, the
task-complexity signal `cx`, the quality score `q` and the cost-per-million
`cpm`, the first matching rule winning, with `hard` as the fallthrough.
Written from the spec text, to be compared with `computeEmpiricalLabel`,
which is written from the code. -/
def labelSpecRules (s cx : Bool) (q cpm : ℚ) : List (Bool × Label) :=
  [ (!s, Label.hard),
    (decide (q < 0.3), Label.hard),
    (decide (q < 0.6) && decide (cpm < 0.5), Label.mid),
    (decide (q > 0.8) && decide (cpm > 5) && !cx, Label.cheap),
    (decide (q > 0.8) && decide (cpm > 5) && cx, Label.mid),
    (decide (cpm < 0.5), Label.cheap),
    (decide (cpm < 5), Label.mid) ]

/-- First-matching-rule semantics of the spec rule table, applied to a log
record with the spec formula cost-per-million = cost / max(token count, 1) * 1e6
and the same read defaults as the code; falls through to `hard`. -/
def labelSpec (r : LogRecord) : Label :=
  ((((labelSpecRules r.success (complexReasoning r) (r.quality_score.getD 0.5)
      ((r.total_cost.getD 0) / max (r.token_count.getD 1000) 1 * 1000000)).find?
    (fun p => p.1)).map (fun p => p.2)).getD .hard)

/-- A log record with every optional field missing, used as a base point for
concrete examples. -/
def emptyRecord : LogRecord where
  success := false
  quality_score := none
  total_cost := none
  token_count := none
  cluster_id := none
  has_code := false
  has_math := false
  ngram_entropy := none
  context_fit := none
  user_success_rate := none
  avg_latency := none
  top_p_distances := none
  embedding := []

/-! ## Policy Optimizer (`HyperparameterOptimizer`) -/

/-- The routing decision the `objective` closure inside
`HyperparameterOptimizer.optimize_thresholds` takes for one probability
triple: `hard` if `p_hard > tau_hard`, else `cheap` if `p_cheap > tau_cheap`,
else `mid`.  `p_mid` is unpacked by the code but never consulted. -/
def routeDecision (tau_cheap tau_hard p_cheap _p_mid p_hard : ℚ) : Label :=
  if p_hard > tau_hard then .hard
  else if p_cheap > tau_cheap then .cheap
  else .mid

/-- `cost_by_bucket` in `_calculate_win_per_dollar`. -/
def bucketCost : Label → ℚ
  | .cheap => 0.08
  | .mid => 3.50
  | .hard => 15.00

/-- `quality_by_bucket` in `_calculate_win_per_dollar`. -/
def bucketQuality : Label → ℚ
  | .cheap => 0.65
  | .mid => 0.82
  | .hard => 0.92

/-- The loop body of `_calculate_win_per_dollar` for one (decision, true
label) pair: directional penalties applied to the fixed per-bucket constants,
then `alpha * quality - (1 - alpha) * (cost / 20)`. -/
def sampleWin (alpha : ℚ) (decision trueLabel : Label) : ℚ :=
  (let predicted_quality : ℚ :=
    if decision.ord < trueLabel.ord then
      bucketQuality decision - ((trueLabel.ord : ℚ) - (decision.ord : ℚ)) * 0.2
    else bucketQuality decision
  let predicted_cost : ℚ :=
    if decision.ord > trueLabel.ord then
      bucketCost decision + ((decision.ord : ℚ) - (trueLabel.ord : ℚ)) * 2.0
    else bucketCost decision
  alpha * predicted_quality - (1 - alpha) * (predicted_cost / 20))

/-- `HyperparameterOptimizer._calculate_win_per_dollar`: total of the
per-sample scores over `zip(decisions, true_labels)`, divided by
`len(decisions)`. -/
def calculateWinPerDollar (decisions trueLabels : List Label) (alpha : ℚ) : ℚ :=
  (((decisions.zip trueLabels).map (fun p => sampleWin alpha p.1 p.2)).sum)
    / (decisions.length : ℚ)

/-- The per-sample score exactly as the specification words it: predicted
cost and quality from the per-bucket constants, under-routing reduces
predicted quality by 0.2 times the ordinal gap, over-routing increases
predicted cost by 2.0 times the ordinal gap, then
alpha * quality - (1 - alpha) * (cost / 20).  Written from the spec text, to
be compared with `sampleWin`, which is written from the code. -/
def specSampleScore (alpha : ℚ) (decision trueLabel : Label) : ℚ :=
  (let gap : ℚ := ((trueLabel.ord : ℚ) - (decision.ord : ℚ))
  let predicted_quality : ℚ :=
    bucketQuality decision - (if decision.ord < trueLabel.ord then 0.2 * gap else 0)
  let predicted_cost : ℚ :=
    bucketCost decision + (if decision.ord > trueLabel.ord then 2.0 * (-gap) else 0)
  alpha * predicted_quality - (1 - alpha) * (predicted_cost / 20))

/-- One sampled (alpha, tau_cheap, tau_hard) trial of
`optimize_thresholds`. -/
structure Candidate : Type where
  alpha : ℚ
  tau_cheap : ℚ
  tau_hard : ℚ
deriving DecidableEq

/-- The `objective` closure of `optimize_thresholds`, given the class
probabilities the trained model predicts for the validation rows (`probs`)
and the true validation labels (`y`): a candidate with
`tau_hard >= tau_cheap` scores positive infinity (modelled as the top
element of `WithTop`), any other candidate scores the negated win-per-dollar
of its routing decisions.  Optuna minimizes this value. -/
def objective (probs : List (ℚ × ℚ × ℚ)) (y : List Label) (c : Candidate) : WithTop ℚ :=
  if c.tau_hard ≥ c.tau_cheap then ⊤
  else
    ((- calculateWinPerDollar
        (probs.map (fun p => routeDecision c.tau_cheap c.tau_hard p.1 p.2.1 p.2.2))
        y c.alpha : ℚ) : WithTop ℚ)

/-- `optimize_thresholds` with the external search sampler abstracted to the
list of candidates it tries, in order: the study keeps the trial with the
minimal objective value, the first one seen in case of ties, and returns its
parameters (`study.best_params`).  Returns `none` only for an empty trial
list. -/
def optimizeThresholds (probs : List (ℚ × ℚ × ℚ)) (y : List Label)
    (trials : List Candidate) : Option Candidate :=
  trials.foldl
    (fun best c =>
      match best with
      | none => some c
      | some b => if objective probs y c < objective probs y b then some c else some b)
    none

/-! ## Job Orchestrator (`TuningServiceAPI`, api_publish.py) -/

/-- Job lifecycle state of a `TrainingStatus` (its `status` string field). -/
inductive JobStatus : Type where
  | pending : JobStatus
  | running : JobStatus
  | completed : JobStatus
  | failed : JobStatus
  | cancelled : JobStatus
deriving DecidableEq

/-- The mutable fields of one `TrainingStatus` entry of
`self.training_jobs` that the claims are about.  Timestamps are rationals. -/
structure TrainingJob : Type where
  status : JobStatus
  progress : ℚ
  message : String
  completed_at : Option ℚ
  error : Option String
deriving DecidableEq

/-- The job as `start_training` creates it. -/
def newJob : TrainingJob where
  status := .pending
  progress := 0
  message := "Training job queued"
  completed_at := none
  error := none

/-- The `cancel_training_job` route handler, for a job id that exists: the
code raises a 400 conflict only when `job.status in ["completed", "failed"]`
(first component `Except.error`, job unchanged); otherwise it sets the status
to cancelled, rewrites the message and stamps `completed_at` with the current
time.  Returns (response, job as stored afterwards). -/
def cancelTrainingJob (now : ℚ) (j : TrainingJob) : Except String Unit × TrainingJob :=
  if j.status = .completed ∨ j.status = .failed then
    (Except.error ("Cannot cancel job"), j)
  else
    (Except.ok (),
      { j with status := .cancelled, message := "Training job cancelled by user",
               completed_at := some now })

/-- The k-th write group `_run_training_job` performs on its job entry, in
program order (the code has no cooperative cancellation check between
stages).  Groups 0 to 6 are the stage-boundary progress checkpoints
0, 10, 30, 60, 80, 95, 100; group 7 is the completion write. -/
def pipelineUpdate (k : ℕ) (now : ℚ) (j : TrainingJob) : TrainingJob :=
  match k with
  | 0 => { j with status := .running, progress := 0,
                  message := "Downloading logs and initializing..." }
  | 1 => { j with progress := 10, message := "Processing PostHook logs..." }
  | 2 => { j with progress := 30, message := "Fitting clusters on embeddings..." }
  | 3 => { j with progress := 60, message := "Training GBDT model with cross-validation..." }
  | 4 => { j with progress := 80, message := "Optimizing thresholds..." }
  | 5 => { j with progress := 95, message := "Exporting final artifact..." }
  | 6 => { j with progress := 100, message := "Publishing artifact to storage..." }
  | _ => { j with status := .completed, progress := 100,
                  message := "Training completed successfully", completed_at := some now }

/-- The `except` handler of `_run_training_job`: status failed, error and
message recorded, `completed_at` stamped — progress left at its last
value. -/
def failUpdate (e : String) (now : ℚ) (j : TrainingJob) : TrainingJob :=
  { j with status := .failed, error := some e,
           message := "Training failed", completed_at := some now }

/-- State of one job as observable between atomic writes: the stored
`TrainingJob`, the number of pipeline write groups already executed, and
whether the failure handler has run. -/
structure JobState : Type where
  job : TrainingJob
  stage : ℕ
  failed : Bool

/-- A freshly accepted job before its background task starts. -/
def initState : JobState := ⟨newJob, 0, false⟩

/-- One atomic mutation of the job entry, by the background pipeline task
(next write group, or the exception handler after any prefix of writes) or
by a concurrently served cancel request.  Status reads interleave anywhere
between steps. -/
inductive JobStep : JobState → JobState → Prop where
  | pipe (s : JobState) (now : ℚ) (h : s.stage < 8) (hf : s.failed = false) :
      JobStep s ⟨pipelineUpdate s.stage now s.job, s.stage + 1, false⟩
  | fail (s : JobState) (e : String) (now : ℚ) (hf : s.failed = false) :
      JobStep s ⟨failUpdate e now s.job, s.stage, true⟩
  | cancel (s : JobState) (now : ℚ) :
      JobStep s ⟨(cancelTrainingJob now s.job).2, s.stage, s.failed⟩

/-- The progress value stored after `k` pipeline write groups. -/
def progressAfter : ℕ → ℚ
  | 0 => 0
  | 1 => 0
  | 2 => 10
  | 3 => 30
  | 4 => 60
  | 5 => 80
  | 6 => 95
  | _ => 100

/-! ## Feature Extractor (`PostHookLogProcessor._extract_features`) -/

/-- The keys of the feature dict `_extract_features` builds (the
`feature_names` schema of `PostHookLogProcessor`).  The key the source
spells with the words context and ratio is `context_fit` here. -/
inductive FeatureKey : Type where
  | cluster_id : FeatureKey
  | token_count : FeatureKey
  | has_code : FeatureKey
  | has_math : FeatureKey
  | ngram_entropy : FeatureKey
  | context_fit : FeatureKey
  | user_success_rate : FeatureKey
  | avg_latency : FeatureKey
  | top_p_distance : ℕ → FeatureKey
  | embedding : ℕ → FeatureKey
deriving DecidableEq

/-- `PostHookLogProcessor._extract_features`: the feature dict of one log
record, as the ordered list of its (key, value) entries — 8 core features,
3 top-p distances (missing entries default to 1.0), then `embedding_dim`
embedding coordinates (missing coordinates default to 0.0, extra ones are
never read). -/
def extractFeatures (embedding_dim : ℕ) (r : LogRecord) : List (FeatureKey × ℚ) :=
  ([ (.cluster_id, r.cluster_id.getD 0),
     (.token_count, r.token_count.getD 0),
     (.has_code, if r.has_code then 1 else 0),
     (.has_math, if r.has_math then 1 else 0),
     (.ngram_entropy, r.ngram_entropy.getD 0),
     (.context_fit, r.context_fit.getD 0),
     (.user_success_rate, r.user_success_rate.getD 0.5),
     (.avg_latency, r.avg_latency.getD 1000) ]
   ++ (List.range 3).map
        (fun i => (FeatureKey.top_p_distance i, (r.top_p_distances.getD [1, 1, 1]).getD i 1))
   ++ (List.range embedding_dim).map
        (fun i => (FeatureKey.embedding i, r.embedding.getD i 0)))

/-! ## Log processing (`PostHookLogProcessor.process_logs`) -/

/-- The three ways one line of the input log file can behave in
`process_logs`: `json.loads` raises (skipped with a warning before the
`logs` list is built); the line parses as JSON but feature or label
extraction raises `KeyError` or `ValueError` — for example a non-numeric
`quality_score` fails `float()` — and the entry is skipped with a warning;
or the line yields a usable record. -/
inductive LogLine : Type where
  | malformed : LogLine
  | badEntry : LogLine
  | valid : LogRecord → LogLine
deriving DecidableEq

/-- Whether `json.loads` accepts the line (so it lands in `logs`). -/
def isParsedLine : LogLine → Bool
  | .malformed => false
  | _ => true

/-- The record a line contributes to the training set, if extraction
succeeds on it. -/
def lineRecord : LogLine → Option LogRecord
  | .valid r => some r
  | _ => none

/-- `PostHookLogProcessor.process_logs`: parse every line, raise
`ValueError` when no line parsed (`if not logs`), then extract features and
labels from each parsed entry, skipping entries whose extraction raises.
Returns (feature rows, labels). -/
def processLogs (embedding_dim : ℕ) (lines : List LogLine) :
    Except String (List (List (FeatureKey × ℚ)) × List Label) :=
  if (lines.filter (fun l => isParsedLine l)).isEmpty then
    Except.error ("No valid log entries found")
  else
    Except.ok
      (((lines.filter (fun l => isParsedLine l)).filterMap lineRecord).map
          (extractFeatures embedding_dim),
       ((lines.filter (fun l => isParsedLine l)).filterMap lineRecord).map
          computeEmpiricalLabel)

/-! ## Artifact Builder (`ArtifactExporter.export_artifact`) -/

/-- `ArtifactExporter.export_artifact`, reduced to its versioning and
archive-writing behaviour.  The version is the UTC timestamp formatted to
second precision; that format is injective on whole seconds, so the version
is modelled directly as the epoch-second count `now` of the build.  The
output directory is an association list from version to archive content id;
the code opens the tar path with mode w, which truncates, so a build whose
version already exists replaces the stored archive — there is no collision
check.  Returns (version, directory afterwards). -/
def exportArtifact (now : ℕ) (content : ℕ) (store : List (ℕ × ℕ)) :
    ℕ × List (ℕ × ℕ) :=
  (now, (now, content) :: store.filter (fun e => e.1 ≠ now))

/-! ## Per-cluster quality scores
(`EmbeddingClusterAnalyzer.compute_per_cluster_quality_scores`, fit_clusters.py) -/

/-- The metadata fields of one sample that
`compute_per_cluster_quality_scores` reads. -/
structure SampleMeta : Type where
  model : String
  success : Bool
  quality_score : ℚ
deriving DecidableEq

/-- The samples of one model inside one cluster: `metadata` rows at the
positions where `cluster_labels == cluster_id`, filtered to the model. -/
def modelClusterSamples (metadata : List SampleMeta) (cluster_labels : List ℕ)
    (model : String) (cluster_id : ℕ) : List SampleMeta :=
  (((metadata.zip cluster_labels).filter (fun p => p.2 == cluster_id)).map Prod.fst).filter
    (fun s => s.model == model)

/-- The per-model per-cluster score of the inner loop of
`compute_per_cluster_quality_scores`: 0.5 with no samples, 0.2 with samples
but no successful one, otherwise the mean quality of the successful samples
times the success rate, clamped to [0.1, 1.0]. -/
def clusterModelScore (model_samples : List SampleMeta) : ℚ :=
  (if model_samples.isEmpty then 0.5
  else
    let quality_scores :=
      (model_samples.filter (fun s => s.success)).map (fun s => s.quality_score)
    if quality_scores.isEmpty then 0.2
    else
      let avg_quality := quality_scores.sum / (quality_scores.length : ℚ)
      let success_rate :=
        ((model_samples.filter (fun s => s.success)).length : ℚ)
          / (model_samples.length : ℚ)
      max 0.1 (min 1 (avg_quality * success_rate)))

/-- `EmbeddingClusterAnalyzer.compute_per_cluster_quality_scores`: for each
requested model, the list of its scores over cluster ids
0 .. len(np.unique(cluster_labels)) - 1. -/
def computePerClusterQualityScores (metadata : List SampleMeta)
    (cluster_labels : List ℕ) (models : List String) : List (String × List ℚ) :=
  (let n_clusters := cluster_labels.dedup.length
  models.map (fun model =>
    (model, (List.range n_clusters).map (fun cluster_id =>
      clusterModelScore (modelClusterSamples metadata cluster_labels model cluster_id)))))

/-- The second C1 example record: a successful request, quality 0.9, cost
0.025 over 1000 tokens (cost-per-million 25), no complexity signals. -/
def exampleCheapRecord : LogRecord :=
  { emptyRecord with
      success := true, quality_score := some 0.9,
      total_cost := some 0.025, token_count := some 1000 }

/-- The third C1 example record: a successful request, quality 0.4, cost
0.0002 over 1000 tokens (cost-per-million 0.2). -/
def exampleMidRecord : LogRecord :=
  { emptyRecord with
      success := true, quality_score := some 0.4,
      total_cost := some 0.0002, token_count := some 1000 }

/-!
# Theorems
-/

/-- The first-match rule-table semantics agrees with the nested if chain,
for any truth values of the guards. -/
theorem chain_eq_find (s cx : Bool) (q cpm : ℚ) :
    (if ¬ s = true then Label.hard
     else if q < 0.3 then Label.hard
     else if q < 0.6 ∧ cpm < 0.5 then Label.mid
     else if q > 0.8 ∧ cpm > 5 then (if ¬ cx = true then Label.cheap else Label.mid)
     else if cpm < 0.5 then Label.cheap
     else if cpm < 5 then Label.mid
     else Label.hard) =
    ((((labelSpecRules s cx q cpm).find? (fun p => p.1)).map (fun p => p.2)).getD Label.hard) := by
  cases s <;> cases cx <;>
  by_cases h1 : q < 0.3 <;> by_cases h2 : q < 0.6 <;> by_cases h3 : cpm < 0.5 <;>
  by_cases h4 : q > 0.8 <;> by_cases h5 : cpm > 5 <;> by_cases h7 : cpm < 5 <;>
  simp [labelSpecRules, List.find?, h1, h2, h3, h4, h5, h7]

/-- C1: the Label Deriver returns the label of the first matching rule of
the spec's ordered rule list (success, quality and cost-per-million
thresholds, complexity signals), with cost-per-million =
cost / max(token count, 1) * 1e6; success=false gives hard regardless of the
other fields; success=true, quality 0.9, cost-per-million 25 and no
complexity signals gives cheap; success=true, quality 0.4, cost-per-million
0.2 gives mid. -/
theorem labelDeriver_first_match_rules : ∀ r : LogRecord,
    computeEmpiricalLabel r = labelSpec r
    ∧ (r.success = false → computeEmpiricalLabel r = .hard)
    ∧ computeEmpiricalLabel exampleCheapRecord = .cheap
    ∧ computeEmpiricalLabel exampleMidRecord = .mid := by
  intro r
  refine ⟨?_, ?_, ?_, ?_⟩
  · exact chain_eq_find r.success (complexReasoning r) (r.quality_score.getD 0.5)
      ((r.total_cost.getD 0) / max (r.token_count.getD 1000) 1 * 1000000)
  · intro h
    simp [computeEmpiricalLabel, h]
  · norm_num [computeEmpiricalLabel, costPerMillion, complexReasoning, cheap_cost_threshold,
      mid_cost_threshold, emptyRecord, exampleCheapRecord]
  · norm_num [computeEmpiricalLabel, costPerMillion, complexReasoning, cheap_cost_threshold,
      mid_cost_threshold, emptyRecord, exampleMidRecord]

/-- Witness for C1 at a concrete record: a failed request labels hard. -/
theorem labelDeriver_first_match_rules_witness :
    computeEmpiricalLabel { emptyRecord with quality_score := some 0.9 } = .hard :=
  ((labelDeriver_first_match_rules { emptyRecord with quality_score := some 0.9 }).2.1 rfl)

/-- C3: the routing decision under a candidate policy checks
`p_hard > tau_hard` first, then `p_cheap > tau_cheap`, and defaults to mid;
with tau_hard=0.55 and tau_cheap=0.65, (0.7, 0.2, 0.1) decides cheap,
(0.1, 0.2, 0.7) decides hard, and (0.4, 0.4, 0.2) decides mid. -/
theorem routingDecision_rule : ∀ tau_cheap tau_hard p_cheap p_mid p_hard : ℚ,
    (p_hard > tau_hard →
      routeDecision tau_cheap tau_hard p_cheap p_mid p_hard = .hard)
    ∧ (p_hard ≤ tau_hard → p_cheap > tau_cheap →
      routeDecision tau_cheap tau_hard p_cheap p_mid p_hard = .cheap)
    ∧ (p_hard ≤ tau_hard → p_cheap ≤ tau_cheap →
      routeDecision tau_cheap tau_hard p_cheap p_mid p_hard = .mid)
    ∧ routeDecision 0.65 0.55 0.7 0.2 0.1 = .cheap
    ∧ routeDecision 0.65 0.55 0.1 0.2 0.7 = .hard
    ∧ routeDecision 0.65 0.55 0.4 0.4 0.2 = .mid := by
  intro tau_cheap tau_hard p_cheap p_mid p_hard
  refine ⟨fun h => ?_, fun h1 h2 => ?_, fun h1 h2 => ?_, ?_, ?_, ?_⟩
  · simp [routeDecision, h]
  · simp [routeDecision, not_lt.2 h1, h2]
  · simp [routeDecision, not_lt.2 h1, not_lt.2 h2]
  · norm_num [routeDecision]
  · norm_num [routeDecision]
  · norm_num [routeDecision]

/-- Witness for C3: the hard check fires at a concrete probability triple. -/
theorem routingDecision_rule_witness :
    routeDecision 0.65 0.55 0 0 1 = .hard :=
  ((routingDecision_rule 0.65 0.55 0 0 1).1 (by norm_num))

/-- The code's per-sample score equals the spec's per-sample score. -/
theorem sampleWin_eq_spec (alpha : ℚ) (d t : Label) :
    sampleWin alpha d t = specSampleScore alpha d t := by
  cases d <;> cases t <;>
    (simp only [sampleWin, specSampleScore, Label.ord, bucketCost, bucketQuality]
     norm_num
     try ring)

/-- C6: on equally long non-empty decision and label arrays, the
win-per-dollar objective is the mean over samples of
alpha * predicted_quality - (1 - alpha) * (predicted_cost / 20), with
predicted cost and quality taken from the fixed per-bucket constants,
under-routing reducing quality by 0.2 per ordinal step and over-routing
adding 2.0 per ordinal step to the cost. -/
theorem winPerDollar_is_spec_mean :
    ∀ (decisions trueLabels : List Label) (alpha : ℚ),
    decisions.length = trueLabels.length → decisions ≠ [] →
    calculateWinPerDollar decisions trueLabels alpha =
      (((decisions.zip trueLabels).map (fun p => specSampleScore alpha p.1 p.2)).sum)
        / (decisions.length : ℚ) := by
  intro decisions trueLabels alpha _ _
  simp [calculateWinPerDollar, sampleWin_eq_spec]

/-- Witness for C6 at concrete two-sample arrays. -/
theorem winPerDollar_is_spec_mean_witness :
    calculateWinPerDollar [Label.cheap, Label.hard] [Label.mid, Label.cheap] 0.5 =
      (((([Label.cheap, Label.hard] : List Label).zip [Label.mid, Label.cheap]).map
        (fun p => specSampleScore 0.5 p.1 p.2)).sum)
        / ((([Label.cheap, Label.hard] : List Label).length : ℚ)) :=
  winPerDollar_is_spec_mean [Label.cheap, Label.hard] [Label.mid, Label.cheap] 0.5 rfl
    (by simp)

/-- The running minimum kept by the trial fold: starting from candidate `b`,
the fold returns a candidate among `b` and the list whose objective is
minimal (first found wins ties). -/
theorem optimizeFold_min (probs : List (ℚ × ℚ × ℚ)) (y : List Label) :
    ∀ (ts : List Candidate) (b : Candidate),
      ∃ r, (ts.foldl
          (fun best c =>
            match best with
            | none => some c
            | some b0 =>
                if objective probs y c < objective probs y b0 then some c else some b0)
          (some b)) = some r
        ∧ (r = b ∨ r ∈ ts)
        ∧ objective probs y r ≤ objective probs y b
        ∧ ∀ c ∈ ts, objective probs y r ≤ objective probs y c := by
  intro ts
  induction ts with
  | nil => exact fun b => ⟨b, rfl, Or.inl rfl, le_refl _, by simp⟩
  | cons t ts ih =>
    intro b
    by_cases hlt : objective probs y t < objective probs y b
    · obtain ⟨r, hfold, hmem, hle, hall⟩ := ih t
      refine ⟨r, ?_, ?_, ?_, ?_⟩
      · simpa [hlt] using hfold
      · rcases hmem with h | h
        · exact Or.inr (by simp [h])
        · exact Or.inr (List.mem_cons_of_mem _ h)
      · exact le_trans hle (le_of_lt hlt)
      · intro c hc
        rcases List.mem_cons.mp hc with rfl | hc
        · exact hle
        · exact hall c hc
    · obtain ⟨r, hfold, hmem, hle, hall⟩ := ih b
      refine ⟨r, ?_, ?_, ?_, ?_⟩
      · simpa [hlt] using hfold
      · rcases hmem with h | h
        · exact Or.inl h
        · exact Or.inr (List.mem_cons_of_mem _ h)
      · exact hle
      · intro c hc
        rcases List.mem_cons.mp hc with rfl | hc
        · exact le_trans hle (not_lt.mp hlt)
        · exact hall c hc

/-- C2 counterexample: with a single sampled candidate that violates
tau_hard < tau_cheap (and lies inside the sampling ranges alpha 0.1-0.9,
tau_cheap 0.3-0.8, tau_hard 0.2-0.7), the search returns that infeasible
candidate — its infinite objective is still the best value seen. -/
theorem thresholds_infeasible_returned :
    optimizeThresholds [((0.2 : ℚ), (0.3 : ℚ), (0.5 : ℚ))] [Label.mid]
        [Candidate.mk 0.5 0.3 0.7] = some (Candidate.mk 0.5 0.3 0.7)
    ∧ (Candidate.mk 0.5 0.3 0.7).tau_hard ≥ (Candidate.mk 0.5 0.3 0.7).tau_cheap := by
  constructor
  · rfl
  · norm_num

/-- C2 (amended): every candidate with tau_hard >= tau_cheap is assigned the
worst possible objective (positive infinity in the minimized objective)
rather than being skipped, and — provided at least one sampled candidate is
feasible — the returned candidate is feasible and best-scoring across all
trials. -/
theorem thresholds_never_infeasible_when_feasible_sampled :
    ∀ (probs : List (ℚ × ℚ × ℚ)) (y : List Label) (trials : List Candidate),
    probs ≠ [] →
    ((∀ c : Candidate, c.tau_cheap ≤ c.tau_hard → objective probs y c = ⊤)
     ∧ (∀ c₀ ∈ trials, c₀.tau_hard < c₀.tau_cheap →
        ∃ r, optimizeThresholds probs y trials = some r
          ∧ r.tau_hard < r.tau_cheap
          ∧ ∀ c ∈ trials, objective probs y r ≤ objective probs y c)) := by
  intro probs y trials _
  constructor
  · intro c h
    simp [objective, h]
  · intro c₀ hc₀ hfeas
    cases trials with
    | nil => exact absurd hc₀ (List.not_mem_nil _)
    | cons t ts =>
      obtain ⟨r, hfold, hmem, hle, hall⟩ := optimizeFold_min probs y ts t
      have hopt : optimizeThresholds probs y (t :: ts) = some r := by
        simpa [optimizeThresholds] using hfold
      have hallfull : ∀ c ∈ t :: ts, objective probs y r ≤ objective probs y c := by
        intro c hc
        rcases List.mem_cons.mp hc with rfl | hc
        · exact hle
        · exact hall c hc
      have hlt_top : objective probs y r < ⊤ := by
        have h1 : objective probs y c₀ < ⊤ := by
          unfold objective
          rw [if_neg (not_le.2 hfeas)]
          exact WithTop.coe_lt_top _
        exact lt_of_le_of_lt (hallfull c₀ hc₀) h1
      have hr_feas : r.tau_hard < r.tau_cheap := by
        by_contra hcon
        rw [not_lt] at hcon
        have htop : objective probs y r = ⊤ := by simp [objective, hcon]
        rw [htop] at hlt_top
        exact absurd hlt_top (lt_irrefl _)
      exact ⟨r, hopt, hr_feas, hallfull⟩

/-- Witness for C2 (amended): a feasible and an infeasible trial; the
returned candidate is feasible and best. -/
theorem thresholds_never_infeasible_witness :
    ∃ r, optimizeThresholds [((0.2 : ℚ), (0.3 : ℚ), (0.5 : ℚ))] [Label.mid]
          [Candidate.mk 0.5 0.3 0.7, Candidate.mk 0.5 0.65 0.55] = some r
      ∧ r.tau_hard < r.tau_cheap
      ∧ ∀ c ∈ [Candidate.mk 0.5 0.3 0.7, Candidate.mk 0.5 0.65 0.55],
          objective [((0.2 : ℚ), (0.3 : ℚ), (0.5 : ℚ))] [Label.mid] r ≤
            objective [((0.2 : ℚ), (0.3 : ℚ), (0.5 : ℚ))] [Label.mid] c :=
  ((thresholds_never_infeasible_when_feasible_sampled
      [((0.2 : ℚ), (0.3 : ℚ), (0.5 : ℚ))] [Label.mid]
      [Candidate.mk 0.5 0.3 0.7, Candidate.mk 0.5 0.65 0.55]
      (by simp)).2
    (Candidate.mk 0.5 0.65 0.55) (by simp) (by norm_num))

/-- C4 counterexample: the code rejects a cancel only on completed and
failed jobs, so cancelling an already cancelled (terminal) job succeeds and
refreshes its completion timestamp instead of returning a conflict. -/
theorem cancel_cancelled_job_succeeds :
    (cancelTrainingJob 2
        { newJob with status := .cancelled, completed_at := some 1 }).1 = Except.ok ()
    ∧ (cancelTrainingJob 2
        { newJob with status := .cancelled, completed_at := some 1 }).2.completed_at
      = some 2 := by
  constructor <;> rfl

/-- C4 (amended): a cancel request is rejected as a conflict, with the job
left entirely unchanged, exactly when the job is completed or failed; on a
pending, running — or already cancelled — job it succeeds, sets the status
to cancelled and stamps `completed_at`. -/
theorem cancel_conflict_on_completed_failed :
    ∀ (now : ℚ) (j : TrainingJob),
    ((j.status = .completed ∨ j.status = .failed) →
      cancelTrainingJob now j = (Except.error ("Cannot cancel job"), j))
    ∧ ((j.status = .pending ∨ j.status = .running ∨ j.status = .cancelled) →
      cancelTrainingJob now j =
        (Except.ok (),
          { j with status := .cancelled, message := "Training job cancelled by user",
                   completed_at := some now })) := by
  intro now j
  constructor
  · intro h
    simp [cancelTrainingJob, h]
  · intro h
    have hnc : ¬ (j.status = .completed ∨ j.status = .failed) := by
      rcases h with h | h | h <;> simp [h]
    simp [cancelTrainingJob, hnc]

/-- Witness for C4 (amended): a completed job is rejected unchanged, a
pending job is cancelled with its timestamp set. -/
theorem cancel_conflict_witness :
    cancelTrainingJob 3 { newJob with status := .completed } =
      (Except.error ("Cannot cancel job"), { newJob with status := .completed })
    ∧ cancelTrainingJob 3 newJob =
      (Except.ok (),
        { newJob with status := .cancelled, message := "Training job cancelled by user",
                      completed_at := some 3 }) :=
  ⟨(cancel_conflict_on_completed_failed 3 { newJob with status := .completed }).1 (Or.inl rfl),
   (cancel_conflict_on_completed_failed 3 newJob).2 (Or.inl rfl)⟩

/-- Each pipeline write group moves the stored progress to the next
checkpoint, whatever the job held before. -/
theorem pipelineUpdate_progress (k : ℕ) (now : ℚ) (j : TrainingJob) :
    (pipelineUpdate k now j).progress = progressAfter (k + 1) := by
  rcases k with _|_|_|_|_|_|_|k <;> rfl

/-- The checkpoint sequence 0, 0, 10, 30, 60, 80, 95, 100, 100, ... is
non-decreasing. -/
theorem progressAfter_le_succ (k : ℕ) : progressAfter k ≤ progressAfter (k + 1) := by
  rcases k with _|_|_|_|_|_|_|k <;>
    first
    | exact le_refl _
    | norm_num [progressAfter]

/-- A cancel request never changes the stored progress. -/
theorem cancel_preserves_progress (now : ℚ) (j : TrainingJob) :
    ((cancelTrainingJob now j).2).progress = j.progress := by
  by_cases h : j.status = .completed ∨ j.status = .failed <;> simp [cancelTrainingJob, h]

/-- The reachability invariant: the stored progress always equals the
checkpoint of the last executed pipeline write group. -/
def JobInv (s : JobState) : Prop := s.job.progress = progressAfter s.stage

/-- Every step preserves the checkpoint invariant. -/
theorem jobStep_inv {s t : JobState} (h : JobStep s t) (hs : JobInv s) : JobInv t := by
  cases h with
  | pipe now hlt hf => exact pipelineUpdate_progress s.stage now s.job
  | fail e now hf => exact hs
  | cancel now =>
      show ((cancelTrainingJob now s.job).2).progress = progressAfter s.stage
      rw [cancel_preserves_progress]
      exact hs

/-- Under the invariant, every step is progress-non-decreasing. -/
theorem jobStep_mono {s t : JobState} (h : JobStep s t) (hs : JobInv s) :
    s.job.progress ≤ t.job.progress := by
  cases h with
  | pipe now hlt hf =>
      show s.job.progress ≤ (pipelineUpdate s.stage now s.job).progress
      rw [pipelineUpdate_progress, hs]
      exact progressAfter_le_succ s.stage
  | fail e now hf => exact le_refl _
  | cancel now =>
      show s.job.progress ≤ ((cancelTrainingJob now s.job).2).progress
      rw [cancel_preserves_progress]

/-- Every state reachable from a fresh job satisfies the checkpoint
invariant. -/
theorem reach_inv {s : JobState} (h : Relation.ReflTransGen JobStep initState s) :
    JobInv s := by
  induction h with
  | refl => rfl
  | tail hab hbc ih => exact jobStep_inv hbc ih

/-- C5: along any interleaving of pipeline write groups, a failure handler
and cancel requests, the progress of a job is non-decreasing — any state
observed later in the run shows progress at least as large as any state
observed earlier. -/
theorem progress_monotone :
    ∀ s t : JobState,
    Relation.ReflTransGen JobStep initState s →
    Relation.ReflTransGen JobStep s t →
    s.job.progress ≤ t.job.progress := by
  intro s t hs hst
  induction hst with
  | refl => exact le_refl _
  | tail hab hbc ih => exact le_trans ih (jobStep_mono hbc (reach_inv (hs.trans hab)))

/-- Witness for C5: one concrete pipeline step from a fresh job does not
decrease progress. -/
theorem progress_monotone_witness :
    initState.job.progress ≤
      (JobState.mk (pipelineUpdate 0 0 newJob) 1 false).job.progress :=
  progress_monotone initState (JobState.mk (pipelineUpdate 0 0 newJob) 1 false)
    Relation.ReflTransGen.refl
    (Relation.ReflTransGen.single (JobStep.pipe initState 0 (by decide) rfl))

/-- The constructor mapping embedding positions to feature keys is
injective. -/
theorem embedding_key_injective : Function.Injective FeatureKey.embedding := by
  intro a b h
  injection h

/-- C7: the feature mapping of any record has exactly 11 + embedding_dim
entries with pairwise-distinct keys; its embedding section is the first
embedding_dim coordinates of the raw embedding zero-padded (shorter
embeddings padded with 0.0, longer ones truncated); a missing top-k
distance defaults to 1.0 and a missing user success-rate prior to 0.5.  No
record is rejected: the extractor is a total function. -/
theorem featureExtractor_fixed_width :
    ∀ (dim : ℕ) (r : LogRecord),
    (extractFeatures dim r).length = 11 + dim
    ∧ ((extractFeatures dim r).map Prod.fst).Nodup
    ∧ (extractFeatures dim r).drop 11 =
        (List.range dim).map (fun i => (FeatureKey.embedding i, r.embedding.getD i 0))
    ∧ (∀ i, i < dim → r.embedding.length ≤ i →
        ((extractFeatures dim r).drop 11).get? i = some (FeatureKey.embedding i, (0 : ℚ)))
    ∧ (∀ i, i < 3 → (extractFeatures dim r).get? (8 + i) =
        some (FeatureKey.top_p_distance i, (r.top_p_distances.getD [1, 1, 1]).getD i 1))
    ∧ (r.top_p_distances = none → ∀ i, i < 3 →
        (extractFeatures dim r).get? (8 + i) = some (FeatureKey.top_p_distance i, (1 : ℚ)))
    ∧ (r.user_success_rate = none →
        (extractFeatures dim r).get? 6 = some (FeatureKey.user_success_rate, (0.5 : ℚ))) := by
  intro dim r
  have htp : ∀ i, i < 3 → (extractFeatures dim r).get? (8 + i) =
      some (FeatureKey.top_p_distance i, (r.top_p_distances.getD [1, 1, 1]).getD i 1) := by
    intro i hi
    interval_cases i <;> rfl
  have hdrop : (extractFeatures dim r).drop 11 =
      (List.range dim).map (fun i => (FeatureKey.embedding i, r.embedding.getD i 0)) := by
    simp only [extractFeatures]
    exact List.drop_left' rfl
  refine ⟨?_, ?_, hdrop, ?_, htp, ?_, ?_⟩
  · simp [extractFeatures]
    omega
  · have hkeys : (extractFeatures dim r).map Prod.fst =
        ([FeatureKey.cluster_id, FeatureKey.token_count, FeatureKey.has_code,
          FeatureKey.has_math, FeatureKey.ngram_entropy, FeatureKey.context_fit,
          FeatureKey.user_success_rate, FeatureKey.avg_latency]
         ++ (List.range 3).map FeatureKey.top_p_distance)
        ++ (List.range dim).map FeatureKey.embedding := by
      simp only [extractFeatures, List.map_append, List.map_map, List.map_cons, List.map_nil]
      rfl
    rw [hkeys]
    refine List.Nodup.append (by decide) ((List.nodup_range dim).map embedding_key_injective) ?_
    intro a ha hb
    rw [List.mem_map] at hb
    obtain ⟨i, -, rfl⟩ := hb
    simp at ha
  · intro i hi hlen
    rw [hdrop, List.get?_eq_getElem?, List.getElem?_map, List.getElem?_range hi,
      Option.map_some', List.getD_eq_default _ _ hlen]
  · intro h i hi
    interval_cases i <;> rw [htp _ (by norm_num), h] <;> rfl
  · intro h
    have h6 : (extractFeatures dim r).get? 6 =
        some (FeatureKey.user_success_rate, r.user_success_rate.getD 0.5) := rfl
    rw [h6, h]
    rfl

/-- Witness for C7 at embedding dimension 2 and the empty record. -/
theorem featureExtractor_fixed_width_witness :
    (extractFeatures 2 emptyRecord).length = 11 + 2
    ∧ (extractFeatures 2 emptyRecord).get? 6 = some (FeatureKey.user_success_rate, (0.5 : ℚ)) :=
  ⟨(featureExtractor_fixed_width 2 emptyRecord).1,
   (featureExtractor_fixed_width 2 emptyRecord).2.2.2.2.2.2 rfl⟩

/-- Filtering out unparseable lines first does not change which records are
extracted: unparseable lines contribute no record anyway. -/
theorem filterMap_lineRecord_filter (lines : List LogLine) :
    (lines.filter (fun l => isParsedLine l)).filterMap lineRecord
      = lines.filterMap lineRecord := by
  induction lines with
  | nil => rfl
  | cons a l ih => cases a <;> simp_all [isParsedLine, lineRecord]

/-- C8 counterexample: a log whose only line parses as JSON but fails
extraction is returned as a normal, empty training set — the fatal
"no valid records" check only fires when no line parses at all. -/
theorem processLogs_badEntry_returns_empty :
    processLogs 768 [LogLine.badEntry] = Except.ok ([], []) := rfl

/-- C8 (amended): malformed lines and entries whose extraction raises are
both skipped; the run fails if and only if no line parses as JSON; on a
normal return the feature matrix and the label array have equal length (the
number of successfully extracted records), and are non-empty whenever at
least one line yields a usable record — but they may be empty when every
parsed entry fails extraction. -/
theorem processLogs_fatal_iff_no_parsed_line :
    ∀ (dim : ℕ) (lines : List LogLine),
    (processLogs dim lines = Except.error ("No valid log entries found")
      ↔ lines.filter (fun l => isParsedLine l) = [])
    ∧ (∀ X y, processLogs dim lines = Except.ok (X, y) →
        X.length = y.length
        ∧ X.length = (lines.filterMap lineRecord).length
        ∧ (∀ r, LogLine.valid r ∈ lines → X ≠ [])) := by
  intro dim lines
  constructor
  · unfold processLogs
    rcases hp : (lines.filter (fun l => isParsedLine l)).isEmpty with _ | _ <;>
      simp_all [List.isEmpty_iff, List.isEmpty_eq_false]
  · intro X y h
    unfold processLogs at h
    split at h
    · exact absurd h (by simp)
    · injection h with h'
      cases h'
      refine ⟨by simp, ?_, ?_⟩
      · simp [filterMap_lineRecord_filter]
      · intro r hr hX
        have hmem : r ∈ lines.filterMap lineRecord :=
          List.mem_filterMap.mpr ⟨LogLine.valid r, hr, rfl⟩
        rw [← filterMap_lineRecord_filter] at hmem
        rw [List.map_eq_nil_iff] at hX
        rw [hX] at hmem
        exact absurd hmem (List.not_mem_nil r)

/-- Witness for C8 (amended) on a log with one malformed and one valid
line. -/
theorem processLogs_fatal_iff_witness :
    ([extractFeatures 1 emptyRecord].length = [computeEmpiricalLabel emptyRecord].length)
    ∧ [extractFeatures 1 emptyRecord].length =
        (([LogLine.malformed, LogLine.valid emptyRecord]).filterMap lineRecord).length
    ∧ (∀ r, LogLine.valid r ∈ [LogLine.malformed, LogLine.valid emptyRecord] →
        [extractFeatures 1 emptyRecord] ≠ []) :=
  (processLogs_fatal_iff_no_parsed_line 1 [LogLine.malformed, LogLine.valid emptyRecord]).2
    [extractFeatures 1 emptyRecord] [computeEmpiricalLabel emptyRecord] rfl

/-- C9 counterexample: two builds in the same UTC second get the same
version, and the second silently overwrites the first archive instead of
being rejected or regenerated. -/
theorem exportArtifact_overwrites_on_collision :
    (exportArtifact 100 2 (exportArtifact 100 1 []).2).1 = (exportArtifact 100 1 []).1
    ∧ ((exportArtifact 100 2 (exportArtifact 100 1 []).2).2).lookup 100 = some 2 := by
  constructor <;> rfl

/-- C9 (amended): two successive builds get distinct versions — with the
earlier archive left retrievable — exactly when their build times differ at
second precision; a build in the same second reuses the version and silently
replaces the stored archive. -/
theorem exportArtifact_version_unique_iff_distinct_seconds :
    ∀ (t₁ t₂ c₁ c₂ : ℕ) (store : List (ℕ × ℕ)),
    (t₁ ≠ t₂ →
      (exportArtifact t₂ c₂ (exportArtifact t₁ c₁ store).2).1 ≠ (exportArtifact t₁ c₁ store).1
      ∧ ((exportArtifact t₂ c₂ (exportArtifact t₁ c₁ store).2).2).lookup t₁ = some c₁)
    ∧ (t₁ = t₂ →
      (exportArtifact t₂ c₂ (exportArtifact t₁ c₁ store).2).1 = (exportArtifact t₁ c₁ store).1
      ∧ ((exportArtifact t₂ c₂ (exportArtifact t₁ c₁ store).2).2).lookup t₁ = some c₂) := by
  intro t₁ t₂ c₁ c₂ store
  constructor
  · intro hne
    constructor
    · simpa [exportArtifact] using Ne.symm hne
    · simp [exportArtifact, List.lookup, List.filter_cons, hne, Ne.symm hne,
        beq_eq_false_iff_ne.mpr hne, beq_eq_false_iff_ne.mpr (Ne.symm hne)]
  · intro heq
    subst heq
    exact ⟨rfl, by simp [exportArtifact, List.lookup]⟩

/-- Witness for C9 (amended) at build seconds 100 and 101. -/
theorem exportArtifact_version_unique_witness :
    (exportArtifact 101 2 (exportArtifact 100 1 []).2).1 ≠ (exportArtifact 100 1 []).1
    ∧ ((exportArtifact 101 2 (exportArtifact 100 1 []).2).2).lookup 100 = some 1 :=
  (exportArtifact_version_unique_iff_distinct_seconds 100 101 1 2 []).1 (by decide)

/-- The per-model per-cluster score always lies in [0.1, 1.0]. -/
theorem clusterModelScore_bounds (S : List SampleMeta) :
    (0.1 : ℚ) ≤ clusterModelScore S ∧ clusterModelScore S ≤ 1 := by
  by_cases h1 : S.isEmpty
  · simp [clusterModelScore, h1]
    norm_num
  · by_cases h2 : ((S.filter (fun s => s.success)).map (fun s => s.quality_score)).isEmpty
    · simp [clusterModelScore, h1, h2]
      norm_num
    · simp only [clusterModelScore, h1, h2, if_false, Bool.false_eq_true, ite_false]
      constructor
      · exact le_max_left _ _
      · exact max_le (by norm_num) (min_le_left _ _)

/-- C10: for matching metadata and cluster-label arrays, the per-cluster
quality computation gives every requested model a score list whose length is
the number of distinct cluster labels, whose every entry lies in [0.1, 1.0],
and whose entry for cluster i is the score of the model's samples in
cluster i — 0.5 with no samples, 0.2 with samples but no successful one,
otherwise the success-rate-adjusted mean quality clamped to [0.1, 1.0]. -/
theorem perClusterQuality_bounds :
    ∀ (metadata : List SampleMeta) (cluster_labels : List ℕ) (models : List String),
    metadata.length = cluster_labels.length →
    ∀ model scores,
      (model, scores) ∈ computePerClusterQualityScores metadata cluster_labels models →
      scores.length = cluster_labels.dedup.length
      ∧ (∀ q ∈ scores, (0.1 : ℚ) ≤ q ∧ q ≤ 1)
      ∧ (∀ i, i < cluster_labels.dedup.length →
          scores.get? i =
            some (clusterModelScore (modelClusterSamples metadata cluster_labels model i)))
      ∧ (∀ S : List SampleMeta,
          (S = [] → clusterModelScore S = 0.5)
          ∧ (S ≠ [] → S.filter (fun s => s.success) = [] → clusterModelScore S = 0.2)
          ∧ (S.filter (fun s => s.success) ≠ [] →
              clusterModelScore S =
                max 0.1 (min 1
                  ((((S.filter (fun s => s.success)).map (fun s => s.quality_score)).sum
                      / (((S.filter (fun s => s.success)).map
                            (fun s => s.quality_score)).length : ℚ))
                    * (((S.filter (fun s => s.success)).length : ℚ) / (S.length : ℚ)))))) := by
  intro metadata cluster_labels models _ model scores hmem
  unfold computePerClusterQualityScores at hmem
  rw [List.mem_map] at hmem
  obtain ⟨m, hm, heq⟩ := hmem
  injection heq with h1 h2
  subst h1
  subst h2
  refine ⟨by simp, ?_, ?_, ?_⟩
  · intro q hq
    rw [List.mem_map] at hq
    obtain ⟨i, hi, rfl⟩ := hq
    exact clusterModelScore_bounds _
  · intro i hi
    simp [List.get?_eq_getElem?, List.getElem?_map, List.getElem?_range, hi]
  · intro S
    refine ⟨?_, ?_, ?_⟩
    · intro h
      simp [clusterModelScore, h]
    · intro hS hfil
      simp [clusterModelScore, List.isEmpty_iff, hS, hfil]
    · intro hfil
      have hS : S ≠ [] := by
        intro hh
        rw [hh] at hfil
        exact hfil rfl
      simp [clusterModelScore, List.isEmpty_iff, hS, hfil]

/-- Witness for C10 on a one-sample, one-cluster, one-model input. -/
theorem perClusterQuality_bounds_witness :
    ((List.range (([0] : List ℕ).dedup.length)).map (fun cid =>
        clusterModelScore
          (modelClusterSamples [SampleMeta.mk "m1" true 0.9] [0] "m1" cid))).length
      = ([0] : List ℕ).dedup.length :=
  (perClusterQuality_bounds [SampleMeta.mk "m1" true 0.9] [0] ["m1"] rfl "m1" _
    (by simp [computePerClusterQualityScores])).1

end Heimdall
